import Mathlib

/-!
Verification of the replica-set health/routing engine of the `sqlt` Go
package (a master/slave wrapper over `sqlx`).

The shallow embedding below translates the relevant parts of `sqlt.go` and
`sqlt_context.go` into Lean:

* `St` mirrors the partition-relevant fields of the Go `DB` struct
  (`sqlxdb` is abstracted to its size `n`; per-connection handles are
  abstracted by outcome oracles, since the driver is external).
* `ping` mirrors the two-phase `func (db *DB) Ping() error`
  (demotion scan over `activedb` with the `i--` compaction, then promotion
  scan over `inactivedb`).  Ping outcomes are supplied by an oracle
  `Nat → Option Nat` giving the outcome of the k-th ping call of the pass
  (`none` = success, `some e` = an error, error values abstracted to `Nat`
  tokens).
* `slave` mirrors `func (db *DB) slave() int` (the uint64 counter wraps
  modulo `2 ^ 64`).
* `pingContextFuel` mirrors `func (db *DB) PingContext(ctx)` from
  `sqlt_context.go`, whose `!db.heartBeat` branch calls itself; the fuel
  parameter makes the non-terminating recursion observable.
* `openLoop` / `openConnectionM` mirror `openConnection`, including the
  `strings.Split(sources, ";")` step (`splitSemi`) and the
  `connsLength < 1` guard.
* `Beat` with `doHeartBeat` / `stopBeat` mirrors the heartbeat flag and
  stop-channel handling of `DoHeartBeat` / `StopBeat` (a channel send is
  modelled as incrementing a signal counter, a goroutine spawn as
  incrementing a spawn counter).
-/

/-- Partition-relevant state of the Go `DB` struct.  `n = len(db.sqlxdb)`,
`length` is the Go `int` field `db.length`, `count` the `uint64` selection
counter, `connected`/`errs` model the mutable parts of `db.stats`. -/
structure St where
  n : Nat
  activedb : List Nat
  inactivedb : List Nat
  length : Int
  count : Nat
  connected : List Bool
  errs : List (Option Nat)
  deriving DecidableEq

/-- State produced by the success path of `openConnection` for `n` targets:
`db.length = connsLength`, `activedb = [0,…,n-1]`, all stats connected. -/
def mkInit (n : Nat) : St :=
  { n := n
    activedb := List.range n
    inactivedb := []
    length := (n : Int)
    count := 0
    connected := List.replicate n true
    errs := List.replicate n none }

/-- Stats update on a successful ping of connection `val`
(`Connected = true`, `Error = nil`; the timestamp is not modelled). -/
def markOk (s : St) (val : Nat) : St :=
  { s with connected := s.connected.set val true
           errs := s.errs.set val none }

/-- Stats update on a failed ping of connection `val`
(`Connected = false`, `Error = errors.New(name ++ ": " ++ err)`,
abstracted to the error token). -/
def markFail (s : St) (val : Nat) (e : Nat) : St :=
  { s with connected := s.connected.set val false
           errs := s.errs.set val (some e) }

/-- Result of the demotion scan (first loop of `Ping`): either the early
`return err` taken when a ping fails while `db.length <= 1`, or normal
completion carrying the current value of the Go `err` variable. -/
inductive P1 where
  | early (s : St) (k : Nat) (e : Nat)
  | done (s : St) (k : Nat) (last : Option Nat)
  deriving DecidableEq

/-- Demotion scan of `Ping`: walk `activedb`; on ping success refresh stats;
on failure return early if `db.length <= 1`, otherwise remove the index from
`activedb` (the Go `i--` compaction makes the walk process exactly the
remaining suffix), append it to `inactivedb` and decrement `length`.
`kept` is the prefix of indices kept so far, `todo` the remaining suffix
(so the live `activedb` is `kept ++ todo`), `k` the number of ping calls
made so far in the pass and `last` the Go `err` variable. -/
def phase1 (oracle : Nat → Option Nat) :
    List Nat → List Nat → St → Nat → Option Nat → P1
  | kept, [], s, k, last => .done { s with activedb := kept } k last
  | kept, val :: rest, s, k, _ =>
    match oracle k with
    | none => phase1 oracle (kept ++ [val]) rest (markOk s val) (k + 1) none
    | some e =>
      if s.length ≤ 1 then
        .early { s with activedb := kept ++ val :: rest } (k + 1) e
      else
        phase1 oracle kept rest
          { markFail s val e with
              inactivedb := s.inactivedb ++ [val]
              length := s.length - 1 }
          (k + 1) (some e)

/-- Promotion scan of `Ping`: walk `inactivedb`; on ping failure record the
error and leave the index in place; on success move it to the tail of
`activedb` and increment `length`.  `kept ++ todo` is the live
`inactivedb`. -/
def phase2 (oracle : Nat → Option Nat) :
    List Nat → List Nat → St → Nat → Option Nat → St × Nat × Option Nat
  | kept, [], s, k, last => ({ s with inactivedb := kept }, k, last)
  | kept, val :: rest, s, k, _ =>
    match oracle k with
    | some e => phase2 oracle (kept ++ [val]) rest (markFail s val e) (k + 1) (some e)
    | none =>
      phase2 oracle kept rest
        { markOk s val with
            activedb := s.activedb ++ [val]
            length := s.length + 1 }
        (k + 1) none

/-- One probe pass, `func (db *DB) Ping() error` (sqlt.go).  Returns the
final state, the number of ping calls performed, and the returned error. -/
def ping (oracle : Nat → Option Nat) (s : St) : St × Nat × Option Nat :=
  match phase1 oracle [] s.activedb s 0 none with
  | .early s1 k e => (s1, k, some e)
  | .done s1 k last => phase2 oracle [] s1.inactivedb s1 k last

/-- Read selector, `func (db *DB) slave() int` (sqlt.go): if
`db.length <= 1` return `0`; otherwise atomically increment the `uint64`
counter (wrapping modulo `2 ^ 64`) and return
`db.activedb[1 + (count mod (length - 1))]`.  The pair is the updated
state and the selected connection index (`List.getD` stands for the Go
index expression). -/
def slave (s : St) : St × Nat :=
  if s.length ≤ 1 then (s, 0)
  else
    let c := (s.count + 1) % 2 ^ 64
    let pos := 1 + c % (s.length - 1).toNat
    ({ s with count := c }, s.activedb.getD pos 0)

/-- States reachable from construction (`openConnection` success path over
`n ≥ 1` targets) by probe passes with arbitrary ping outcomes. -/
inductive Reachable : St → Prop where
  | init : ∀ n : Nat, 1 ≤ n → Reachable (mkInit n)
  | step : ∀ (s : St) (oracle : Nat → Option Nat),
      Reachable s → Reachable (ping oracle s).1

/-- The maintained invariant: the active set is never empty, `db.length`
equals `len(db.activedb)`, and `activedb ++ inactivedb` is a permutation of
the configured indices `0,…,n-1`. -/
def StInv (s : St) : Prop :=
  1 ≤ s.length ∧ s.length = (s.activedb.length : Int) ∧
    (s.activedb ++ s.inactivedb).Perm (List.range s.n)

/-- Value of the Go `err` variable after `k` ping calls whose outcomes come
from `oracle`: `nil` before any call, otherwise the outcome of the last
call. -/
def lastErr (oracle : Nat → Option Nat) : Nat → Option Nat
  | 0 => none
  | k + 1 => oracle k

/-- DB state of the heartbeat-aware version (`sqlt_context.go` /
`StopBeat` variant of `sqlt.go`): the partition state plus the
`heartBeat` flag. -/
structure StHB where
  base : St
  heartBeat : Bool
  deriving DecidableEq

/-- Fuel-indexed model of `func (db *DB) PingContext(ctx) error`
(sqlt_context.go): when `db.heartBeat` is false the Go function executes
`return db.PingContext(ctx)`, calling itself with unchanged state;
otherwise it runs the same two-phase pass as `Ping`.  `none` means the
fuel ran out before the call returned, so a result of `none` for every
fuel value means the call never returns. -/
def pingContextFuel (oracle : Nat → Option Nat) :
    Nat → StHB → Option (St × Nat × Option Nat)
  | 0, _ => none
  | fuel + 1, s =>
    if s.heartBeat = false then pingContextFuel oracle fuel s
    else some (ping oracle s.base)

/-- Heartbeat lifecycle state (`StopBeat` variant of sqlt.go):
`heartBeat` is the Go `db.heartBeat` flag, `spawned` counts goroutines
started by `DoHeartBeat`, `signals` counts values sent on the
`db.stopBeat` channel. -/
structure Beat where
  heartBeat : Bool
  spawned : Nat
  signals : Nat
  deriving DecidableEq

/-- Model of `func (db *DB) DoHeartBeat()`: if the flag is unset, spawn the
ticker goroutine; in all cases set `db.heartBeat = true`. -/
def doHeartBeat (b : Beat) : Beat :=
  let b1 := if b.heartBeat = false then { b with spawned := b.spawned + 1 } else b
  { b1 with heartBeat := true }

/-- Model of `func (db *DB) StopBeat()`: if the flag is unset, return
immediately; otherwise send one value on `db.stopBeat` (which makes the
heartbeat goroutine return).  The Go code never assigns to
`db.heartBeat` here. -/
def stopBeat (b : Beat) : Beat :=
  if b.heartBeat = false then b
  else { b with signals := b.signals + 1 }

/-- Go's `strings.Split(s, ";")` on a string viewed as a character list:
split at every `';'`, keeping empty parts, so the result always has
(number of separators + 1) elements and in particular is never empty. -/
def splitSemi : List Char → List (List Char)
  | [] => [[]]
  | c :: rest =>
    if c = ';' then [] :: splitSemi rest
    else
      match splitSemi rest with
      | [] => [[c]]
      | h :: t => (c :: h) :: t

/-- Outcome of `openConnection`: the dead `connsLength < 1` branch
(`"No sources found"`), an open failure at some target (recording which
handles were opened, which were closed before returning, and the
`inactivedb` of the abandoned struct), or success (final state after the
construction-time `db.Ping()`, with its call count and returned error). -/
inductive OpenOut where
  | noSources : OpenOut
  | fail (e : Nat) (opened : List Nat) (closed : List Nat)
      (inactivedb : List Nat) : OpenOut
  | ok (s : St) (pingCalls : Nat) (pingErr : Option Nat) : OpenOut
  deriving DecidableEq

/-- The `for i := range conns` loop of `openConnection`: open each target
in order (`openOr i = none` means `sqlx.Open` succeeds for target `i`);
on failure append `i` to `inactivedb` and return the error without closing
anything; on success record the stats entry and append `i` to `activedb`.
After the loop, run the construction-time `db.Ping()`. -/
def openLoop (openOr pingOr : Nat → Option Nat) :
    List Nat → St → List Nat → OpenOut
  | [], s, _ =>
    let r := ping pingOr s
    .ok r.1 r.2.1 r.2.2
  | i :: rest, s, opened =>
    match openOr i with
    | some e => .fail e opened [] (s.inactivedb ++ [i])
    | none =>
      openLoop openOr pingOr rest
        { s with activedb := s.activedb ++ [i]
                 connected := s.connected.set i true
                 errs := s.errs.set i none }
        (opened ++ [i])

/-- Model of `openConnection(driverName, sources, groupName)` (sqlt.go):
split `sources` at `';'`, reject if the split is empty (`connsLength < 1`),
then run the open loop over the target indices starting from the freshly
allocated struct (`stats` zero-valued, so `Connected = false`). -/
def openConnectionM (openOr pingOr : Nat → Option Nat)
    (src : List Char) : OpenOut :=
  let conns := splitSemi src
  if conns.length < 1 then .noSources
  else
    openLoop openOr pingOr (List.range conns.length)
      { n := conns.length
        activedb := []
        inactivedb := []
        length := (conns.length : Int)
        count := 0
        connected := List.replicate conns.length false
        errs := List.replicate conns.length none }
      []

/-- The rollback property claimed for a failed construction: every handle
opened before the failing target is closed before the error is returned. -/
def closesAllOpened : OpenOut → Prop
  | .fail _ opened closed _ => ∀ h ∈ opened, h ∈ closed
  | _ => True

instance : ∀ o : OpenOut, Decidable (closesAllOpened o) := by
  intro o
  cases o with
  | noSources => exact .isTrue trivial
  | fail e opened closed i => exact List.decidableBAll _ opened
  | ok s k e => exact .isTrue trivial

example : ping (fun k => if k = 0 then some 7 else none) (mkInit 2) =
    ({ n := 2, activedb := [1, 0], inactivedb := [], length := 2, count := 0,
       connected := [true, true], errs := [none, none] }, 3, none) := by decide

example : ping (fun _ => some 9) (mkInit 1) = (mkInit 1, 1, some 9) := by decide

example : (slave (mkInit 3)).2 = (mkInit 3).activedb.getD 2 0 := by decide

example : splitSemi [] = [[]] := by decide

example : openConnectionM (fun _ => none) (fun _ => none) [] =
    .ok (mkInit 1) 1 none := by decide

example : openConnectionM (fun j => if j = 1 then some 3 else none)
    (fun _ => none) [Char.ofNat 97, ';', Char.ofNat 98] =
    .fail 3 [0] [] [1] := by decide

/-- The split of a sources string at `';'` always has at least one part, so
the `connsLength < 1` guard of `openConnection` can never fire. -/
theorem splitSemi_ne_nil (l : List Char) : splitSemi l ≠ [] := by
  induction l with
  | nil => simp [splitSemi]
  | cons c rest ih =>
    by_cases hc : c = ';'
    · simp [splitSemi, hc]
    · simp only [splitSemi, if_neg hc]
      cases h : splitSemi rest with
      | nil => simp
      | cons hd tl => simp

/-- The open loop of `openConnection` only produces an open failure or a
constructed state, never the no-sources error. -/
theorem openLoop_ne_noSources (openOr pingOr : Nat → Option Nat) :
    ∀ (l : List Nat) (s : St) (opened : List Nat),
      openLoop openOr pingOr l s opened ≠ .noSources := by
  intro l
  induction l with
  | nil => intro s opened; simp [openLoop]
  | cons i rest ih =>
    intro s opened
    simp only [openLoop]
    cases openOr i <;> simp [ih]

/-- C1: the read selector `slave()` returns index `0` when
`db.length <= 1`; otherwise it increments the `uint64` selection counter
once (wrapping modulo `2 ^ 64`) and returns the entry of `activedb` at
position `1 + (counter mod (length - 1))`, a position that is at least `1`
(never the primary slot) and at most `length - 1`, so consecutive calls
round-robin over positions `1 .. length - 1` of the active list. -/
theorem slave_select_spec (s : St) :
    (s.length ≤ 1 → slave s = (s, 0)) ∧
    (1 < s.length →
      (slave s).1 = { s with count := (s.count + 1) % 2 ^ 64 } ∧
      (slave s).2 =
        s.activedb.getD (1 + ((s.count + 1) % 2 ^ 64) % (s.length - 1).toNat) 0 ∧
      0 < 1 + ((s.count + 1) % 2 ^ 64) % (s.length - 1).toNat ∧
      1 + ((s.count + 1) % 2 ^ 64) % (s.length - 1).toNat ≤ (s.length - 1).toNat) := by
  constructor
  · intro h
    simp [slave, h]
  · intro h
    have hnot : ¬ s.length ≤ 1 := not_le.mpr h
    have hpos : 0 < (s.length - 1).toNat := by omega
    have hr : ((s.count + 1) % 2 ^ 64) % (s.length - 1).toNat < (s.length - 1).toNat :=
      Nat.mod_lt _ hpos
    refine ⟨?_, ?_, ?_, ?_⟩
    · simp [slave, hnot]
    · simp [slave, hnot]
    · omega
    · omega

/-- Witness for `slave_select_spec` at concrete states. -/
theorem slave_select_spec_witness :
    slave (mkInit 1) = (mkInit 1, 0) ∧
    (slave (mkInit 3)).2 =
      (mkInit 3).activedb.getD
        (1 + (((mkInit 3).count + 1) % 2 ^ 64) % ((mkInit 3).length - 1).toNat) 0 :=
  ⟨(slave_select_spec (mkInit 1)).1 (by decide),
   ((slave_select_spec (mkInit 3)).2 (by decide)).2.1⟩

/-- C10: under the invariants `1 ≤ n` and `db.length = len(db.activedb)`,
`slave()` never indexes out of range: with `db.length <= 1` it returns `0`
(valid in the connection array of size `n`), and otherwise the computed
position is strictly between `0` and `len(db.activedb)`. -/
theorem slave_index_in_bounds (s : St) (h1 : 1 ≤ s.n)
    (h2 : s.length = (s.activedb.length : Int)) :
    (s.length ≤ 1 → (slave s).2 = 0 ∧ 0 < s.n) ∧
    (1 < s.length →
      0 < 1 + ((s.count + 1) % 2 ^ 64) % (s.length - 1).toNat ∧
      1 + ((s.count + 1) % 2 ^ 64) % (s.length - 1).toNat < s.activedb.length) := by
  constructor
  · intro h
    exact ⟨by simp [slave, h], h1⟩
  · intro h
    have hlen : 2 ≤ s.activedb.length := by omega
    have htn : (s.length - 1).toNat = s.activedb.length - 1 := by omega
    have hpos : 0 < (s.length - 1).toNat := by omega
    have hr : ((s.count + 1) % 2 ^ 64) % (s.length - 1).toNat < (s.length - 1).toNat :=
      Nat.mod_lt _ hpos
    omega

/-- Witness for `slave_index_in_bounds` at a concrete state. -/
theorem slave_index_in_bounds_witness :
    0 < 1 + (((mkInit 3).count + 1) % 2 ^ 64) % ((mkInit 3).length - 1).toNat ∧
    1 + (((mkInit 3).count + 1) % 2 ^ 64) % ((mkInit 3).length - 1).toNat <
      (mkInit 3).activedb.length :=
  (slave_index_in_bounds (mkInit 3) (by decide) (by decide)).2 (by decide)

/-- C4 (code bug): `PingContext` called while the heartbeat flag is false
immediately calls itself with unchanged state, so the call never returns,
whatever fuel it is given — the probe pass neither terminates nor performs
any ping call, contradicting the bounded-probe claim. -/
theorem pingContext_no_heartbeat_diverges (oracle : Nat → Option Nat)
    (fuel : Nat) (s : StHB) (h : s.heartBeat = false) :
    pingContextFuel oracle fuel s = none := by
  induction fuel with
  | zero => rfl
  | succ m ih => simp [pingContextFuel, h, ih]

/-- Witness for `pingContext_no_heartbeat_diverges` on a freshly opened
single-connection DB, before `DoHeartBeat` was ever called. -/
theorem pingContext_no_heartbeat_diverges_witness :
    pingContextFuel (fun _ => none) 1000 { base := mkInit 1, heartBeat := false } = none :=
  pingContext_no_heartbeat_diverges (fun _ => none) 1000
    { base := mkInit 1, heartBeat := false } rfl

/-- C8 counterexample: calling `StopBeat` on a running heartbeat sends the
stop signal but leaves `db.heartBeat = true` — the running flag does not
become false. -/
theorem stopBeat_flag_cex :
    stopBeat { heartBeat := true, spawned := 1, signals := 0 } =
      { heartBeat := true, spawned := 1, signals := 1 } ∧
    ¬ (stopBeat { heartBeat := true, spawned := 1, signals := 0 }).heartBeat = false := by
  decide

/-- C8 amended: `StopBeat` while the flag is true sends exactly one value
on the stop channel (terminating the heartbeat goroutine) and changes
nothing else — in particular the flag stays true; while the flag is false
it is a no-op. -/
theorem stopBeat_signal_only (b : Beat) :
    (b.heartBeat = true →
      stopBeat b = { b with signals := b.signals + 1 } ∧
      (stopBeat b).heartBeat = true) ∧
    (b.heartBeat = false → stopBeat b = b) := by
  constructor
  · intro h
    constructor <;> simp [stopBeat, h]
  · intro h
    simp [stopBeat, h]

/-- Witness for `stopBeat_signal_only` at concrete states. -/
theorem stopBeat_signal_only_witness :
    stopBeat { heartBeat := true, spawned := 1, signals := 4 } =
      { heartBeat := true, spawned := 1, signals := 5 } ∧
    stopBeat { heartBeat := false, spawned := 0, signals := 0 } =
      { heartBeat := false, spawned := 0, signals := 0 } :=
  ⟨((stopBeat_signal_only { heartBeat := true, spawned := 1, signals := 4 }).1 rfl).1,
   (stopBeat_signal_only { heartBeat := false, spawned := 0, signals := 0 }).2 rfl⟩

/-- C7 (code bug): the empty sources string is not rejected — it denotes
the single empty target `[""]`, so `openConnection` builds a one-connection
state; and no sources string at all can reach the `"No sources found"`
branch, because splitting at `';'` never yields an empty list. -/
theorem open_empty_sources_not_rejected :
    openConnectionM (fun _ => none) (fun _ => none) [] = .ok (mkInit 1) 1 none ∧
    ∀ (openOr pingOr : Nat → Option Nat) (src : List Char),
      openConnectionM openOr pingOr src ≠ .noSources := by
  constructor
  · decide
  · intro openOr pingOr src
    unfold openConnectionM
    have h := splitSemi_ne_nil src
    have hlen : ¬ (splitSemi src).length < 1 := by
      cases hs : splitSemi src with
      | nil => exact absurd hs h
      | cons a t => simp
    simp only [if_neg hlen]
    exact openLoop_ne_noSources _ _ _ _ _

/-- C5 counterexample: with two connections, a failing first ping (error 7)
followed by successful pings makes the pass return `nil` even though an
error was encountered — the returned value is not the last error
encountered during the pass. -/
theorem ping_last_error_cex :
    (ping (fun k => if k = 0 then some 7 else none) (mkInit 2)).2.2 = none ∧
    (if 0 = 0 then some 7 else (none : Option Nat)) = some 7 ∧
    (ping (fun k => if k = 0 then some 7 else none) (mkInit 2)).2.1 = 3 := by
  refine ⟨by decide, rfl, by decide⟩

/-- C9 counterexample: with targets `"a;b"`, opening target 0 succeeds and
opening target 1 fails with error 3; `openConnection` returns the error
with handle 0 still open and nothing closed — already-open handles are not
closed before returning. -/
theorem open_fail_no_close_cex :
    openConnectionM (fun j => if j = 1 then some 3 else none) (fun _ => none)
      [Char.ofNat 97, ';', Char.ofNat 98] = .fail 3 [0] [] [1] ∧
    ¬ closesAllOpened (openConnectionM (fun j => if j = 1 then some 3 else none)
      (fun _ => none) [Char.ofNat 97, ';', Char.ofNat 98]) := by
  constructor <;> decide

@[simp] theorem markOk_n (s : St) (v : Nat) : (markOk s v).n = s.n := rfl
@[simp] theorem markOk_activedb (s : St) (v : Nat) : (markOk s v).activedb = s.activedb := rfl
@[simp] theorem markOk_inactivedb (s : St) (v : Nat) : (markOk s v).inactivedb = s.inactivedb := rfl
@[simp] theorem markOk_length (s : St) (v : Nat) : (markOk s v).length = s.length := rfl
@[simp] theorem markOk_count (s : St) (v : Nat) : (markOk s v).count = s.count := rfl
@[simp] theorem markFail_n (s : St) (v e : Nat) : (markFail s v e).n = s.n := rfl
@[simp] theorem markFail_activedb (s : St) (v e : Nat) : (markFail s v e).activedb = s.activedb := rfl
@[simp] theorem markFail_inactivedb (s : St) (v e : Nat) : (markFail s v e).inactivedb = s.inactivedb := rfl
@[simp] theorem markFail_length (s : St) (v e : Nat) : (markFail s v e).length = s.length := rfl
@[simp] theorem markFail_count (s : St) (v e : Nat) : (markFail s v e).count = s.count := rfl

/-- Moving an element from the middle of the first block to the end of the
second block is a permutation. -/
theorem append_move_perm (v : Nat) (l1 l2 l3 : List Nat) :
    ((l1 ++ l2) ++ (l3 ++ [v])).Perm ((l1 ++ v :: l2) ++ l3) := by
  have h1 : (l1 ++ v :: l2) ++ l3 = l1 ++ (v :: (l2 ++ l3)) := by simp
  have h2 : (l1 ++ l2) ++ (l3 ++ [v]) = l1 ++ ((l2 ++ l3) ++ [v]) := by simp
  rw [h1, h2]
  exact List.Perm.append_left l1 (List.perm_append_singleton v (l2 ++ l3))

/-- Demotion-scan invariant: if `db.length` equals the live active length
`len(kept ++ todo)` and is positive, then whichever way the scan ends, the
final state keeps `db.length = len(activedb)` positive, permutes the
combined index lists, and touches neither `n` nor the selection counter. -/
theorem phase1_inv (oracle : Nat → Option Nat) :
    ∀ (todo kept : List Nat) (s : St) (k : Nat) (last : Option Nat),
      s.length = ((kept.length + todo.length : Nat) : Int) →
      1 ≤ s.length →
      (∀ s1 k1 e, phase1 oracle kept todo s k last = .early s1 k1 e →
        1 ≤ s1.length ∧ s1.length = (s1.activedb.length : Int) ∧
        (s1.activedb ++ s1.inactivedb).Perm ((kept ++ todo) ++ s.inactivedb) ∧
        s1.n = s.n ∧ s1.count = s.count) ∧
      (∀ s1 k1 last1, phase1 oracle kept todo s k last = .done s1 k1 last1 →
        1 ≤ s1.length ∧ s1.length = (s1.activedb.length : Int) ∧
        (s1.activedb ++ s1.inactivedb).Perm ((kept ++ todo) ++ s.inactivedb) ∧
        s1.n = s.n ∧ s1.count = s.count) := by
  intro todo
  induction todo with
  | nil =>
    intro kept s k last hlen hge
    constructor
    · intro s1 k1 e h
      simp [phase1] at h
    · intro s1 k1 last1 h
      simp only [phase1, P1.done.injEq] at h
      obtain ⟨hs, hk, hl⟩ := h
      subst hs
      refine ⟨hge, ?_, ?_, rfl, rfl⟩
      · simpa using hlen
      · simp
  | cons val rest ih =>
    intro kept s k last hlen hge
    cases horacle : oracle k with
    | none =>
      have hstep : phase1 oracle kept (val :: rest) s k last =
          phase1 oracle (kept ++ [val]) rest (markOk s val) (k + 1) none := by
        simp [phase1, horacle]
      have hpre1 : (markOk s val).length =
          (((kept ++ [val]).length + rest.length : Nat) : Int) := by
        simp only [markOk_length]
        rw [hlen]
        push_cast
        simp
        omega
      have hpre2 : 1 ≤ (markOk s val).length := by simpa using hge
      have ihh := ih (kept ++ [val]) (markOk s val) (k + 1) none hpre1 hpre2
      constructor
      · intro s1 k1 e h
        rw [hstep] at h
        have res := ihh.1 s1 k1 e h
        refine ⟨res.1, res.2.1, ?_, res.2.2.2.1, res.2.2.2.2⟩
        have := res.2.2.1
        simpa using this
      · intro s1 k1 last1 h
        rw [hstep] at h
        have res := ihh.2 s1 k1 last1 h
        refine ⟨res.1, res.2.1, ?_, res.2.2.2.1, res.2.2.2.2⟩
        have := res.2.2.1
        simpa using this
    | some e0 =>
      by_cases hle : s.length ≤ 1
      · have hstep : phase1 oracle kept (val :: rest) s k last =
            .early { s with activedb := kept ++ val :: rest } (k + 1) e0 := by
          simp [phase1, horacle, hle]
        constructor
        · intro s1 k1 e h
          rw [hstep] at h
          simp only [P1.early.injEq] at h
          obtain ⟨hs, hk, he⟩ := h
          subst hs
          refine ⟨hge, ?_, ?_, rfl, rfl⟩
          · simp only []
            rw [hlen]
            push_cast
            simp
          · simp
        · intro s1 k1 last1 h
          rw [hstep] at h
          simp at h
      · have hstep : phase1 oracle kept (val :: rest) s k last =
            phase1 oracle kept rest
              { markFail s val e0 with
                  inactivedb := s.inactivedb ++ [val]
                  length := s.length - 1 }
              (k + 1) (some e0) := by
          simp [phase1, horacle, hle]
        have hpre1 :
            ({ markFail s val e0 with
                inactivedb := s.inactivedb ++ [val]
                length := s.length - 1 } : St).length =
              ((kept.length + rest.length : Nat) : Int) := by
          simp only []
          rw [hlen]
          push_cast
          simp
          omega
        have hpre2 : 1 ≤ ({ markFail s val e0 with
            inactivedb := s.inactivedb ++ [val]
            length := s.length - 1 } : St).length := by
          simp only []
          omega
        have ihh := ih kept _ (k + 1) (some e0) hpre1 hpre2
        constructor
        · intro s1 k1 e h
          rw [hstep] at h
          have res := ihh.1 s1 k1 e h
          refine ⟨res.1, res.2.1, ?_, res.2.2.2.1, res.2.2.2.2⟩
          have hperm := res.2.2.1
          simp only [markFail_inactivedb, markFail_activedb] at hperm
          exact hperm.trans (append_move_perm val kept rest s.inactivedb)
        · intro s1 k1 last1 h
          rw [hstep] at h
          have res := ihh.2 s1 k1 last1 h
          refine ⟨res.1, res.2.1, ?_, res.2.2.2.1, res.2.2.2.2⟩
          have hperm := res.2.2.1
          simp only [markFail_inactivedb, markFail_activedb] at hperm
          exact hperm.trans (append_move_perm val kept rest s.inactivedb)

/-- Promotion-scan invariant: starting from a state with
`db.length = len(activedb) ≥ 1` and live inactive list `kept ++ todo`,
the scan keeps `db.length = len(activedb)` positive, permutes the combined
index lists, and touches neither `n` nor the selection counter. -/
theorem phase2_inv (oracle : Nat → Option Nat) :
    ∀ (todo kept : List Nat) (s : St) (k : Nat) (last : Option Nat),
      s.length = (s.activedb.length : Int) →
      1 ≤ s.length →
      1 ≤ (phase2 oracle kept todo s k last).1.length ∧
      (phase2 oracle kept todo s k last).1.length =
        ((phase2 oracle kept todo s k last).1.activedb.length : Int) ∧
      ((phase2 oracle kept todo s k last).1.activedb ++
        (phase2 oracle kept todo s k last).1.inactivedb).Perm
          (s.activedb ++ (kept ++ todo)) ∧
      (phase2 oracle kept todo s k last).1.n = s.n ∧
      (phase2 oracle kept todo s k last).1.count = s.count := by
  intro todo
  induction todo with
  | nil =>
    intro kept s k last hlen hge
    refine ⟨by simpa [phase2] using hge, by simpa [phase2] using hlen, ?_,
      by simp [phase2], by simp [phase2]⟩
    simp only [phase2]
    simp
  | cons val rest ih =>
    intro kept s k last hlen hge
    cases horacle : oracle k with
    | some e0 =>
      have hstep : phase2 oracle kept (val :: rest) s k last =
          phase2 oracle (kept ++ [val]) rest (markFail s val e0) (k + 1) (some e0) := by
        simp [phase2, horacle]
      rw [hstep]
      have ihh := ih (kept ++ [val]) (markFail s val e0) (k + 1) (some e0)
        (by simpa using hlen) (by simpa using hge)
      refine ⟨ihh.1, ihh.2.1, ?_, ihh.2.2.2.1, ihh.2.2.2.2⟩
      have hperm := ihh.2.2.1
      simpa using hperm
    | none =>
      have hstep : phase2 oracle kept (val :: rest) s k last =
          phase2 oracle kept rest
            { markOk s val with
                activedb := s.activedb ++ [val]
                length := s.length + 1 }
            (k + 1) none := by
        simp [phase2, horacle]
      rw [hstep]
      have hpre1 : ({ markOk s val with
          activedb := s.activedb ++ [val]
          length := s.length + 1 } : St).length =
            ((({ markOk s val with
                activedb := s.activedb ++ [val]
                length := s.length + 1 } : St).activedb.length : Nat) : Int) := by
        simp only []
        rw [hlen]
        simp
      have hpre2 : 1 ≤ ({ markOk s val with
          activedb := s.activedb ++ [val]
          length := s.length + 1 } : St).length := by
        simp only []
        omega
      have ihh := ih kept _ (k + 1) none hpre1 hpre2
      refine ⟨ihh.1, ihh.2.1, ?_, ihh.2.2.2.1, ihh.2.2.2.2⟩
      have hperm := ihh.2.2.1
      simp only [] at hperm
      refine hperm.trans ?_
      have heq : (s.activedb ++ [val]) ++ (kept ++ rest) =
          s.activedb ++ (val :: (kept ++ rest)) := by simp
      rw [heq]
      exact List.Perm.append_left s.activedb List.perm_middle.symm

/-- A full probe pass preserves the partition invariant and leaves the
configured size and the selection counter untouched. -/
theorem ping_inv (oracle : Nat → Option Nat) (s : St) (h : StInv s) :
    StInv (ping oracle s).1 ∧ (ping oracle s).1.n = s.n ∧
      (ping oracle s).1.count = s.count := by
  obtain ⟨hge, hlen, hperm⟩ := h
  have hpre : s.length = ((([] : List Nat).length + s.activedb.length : Nat) : Int) := by
    simpa using hlen
  have h1 := phase1_inv oracle s.activedb [] s 0 none hpre hge
  unfold ping
  cases hp : phase1 oracle [] s.activedb s 0 none with
  | early s1 k e =>
    have res := h1.1 s1 k e hp
    refine ⟨⟨res.1, res.2.1, ?_⟩, res.2.2.2.1, res.2.2.2.2⟩
    have := res.2.2.1
    rw [res.2.2.2.1]
    refine this.trans ?_
    simpa using hperm
  | done s1 k last =>
    have res := h1.2 s1 k last hp
    have h2 := phase2_inv oracle s1.inactivedb [] s1 k last res.2.1 res.1
    refine ⟨⟨h2.1, h2.2.1, ?_⟩, ?_, ?_⟩
    · have hp2 := h2.2.2.1
      rw [h2.2.2.2.1, res.2.2.2.1]
      refine (hp2.trans ?_).trans hperm
      simpa using res.2.2.1
    · rw [h2.2.2.2.1, res.2.2.2.1]
    · rw [h2.2.2.2.2, res.2.2.2.2]

/-- Every state reachable from construction by probe passes satisfies the
partition invariant. -/
theorem reachable_StInv (s : St) (h : Reachable s) : StInv s := by
  induction h with
  | init n hn =>
    refine ⟨?_, by simp [mkInit], by simp [mkInit]⟩
    simp only [mkInit]
    exact_mod_cast hn
  | step s oracle hr ih =>
    exact (ping_inv oracle s ih).1

/-- C2: when the single remaining active connection fails its ping
(`db.length <= 1` at the failing probe), the pass returns that ping error
immediately with `activedb`, `inactivedb` and `db.length` (indeed the whole
state) unchanged; and in every reachable state the active count is at least
one and the active list non-empty, so the last active connection is never
demoted. -/
theorem ping_preserves_last_active :
    (∀ (s : St) (a : Nat) (oracle : Nat → Option Nat) (e : Nat),
      s.activedb = [a] → s.length ≤ 1 → oracle 0 = some e →
      ping oracle s = (s, 1, some e)) ∧
    (∀ s : St, Reachable s → 1 ≤ s.length ∧ s.activedb ≠ []) := by
  constructor
  · intro s a oracle e h hle hor
    rcases s with ⟨n, act, inact, len, cnt, conn, errs⟩
    simp only [] at h hle
    subst h
    simp [ping, phase1, hor, hle]
  · intro s h
    obtain ⟨hge, hlen, _⟩ := reachable_StInv s h
    refine ⟨hge, ?_⟩
    intro hnil
    rw [hnil] at hlen
    simp at hlen
    omega

/-- Witness for `ping_preserves_last_active`: a single-target DB whose
primary fails its ping keeps its partition, and a fresh DB has a positive
active count. -/
theorem ping_preserves_last_active_witness :
    ping (fun _ => some 5) (mkInit 1) = (mkInit 1, 1, some 5) ∧
      1 ≤ (mkInit 1).length :=
  ⟨ping_preserves_last_active.1 (mkInit 1) 0 (fun _ => some 5) 5 (by decide)
      (by decide) rfl,
   (ping_preserves_last_active.2 (mkInit 1) (Reachable.init 1 (by decide))).1⟩

/-- C3: in every state reachable from construction by probe passes,
`activedb ++ inactivedb` is a permutation of `{0,…,n-1}`: both lists are
duplicate-free, disjoint, and together cover exactly the configured
indices. -/
theorem reachable_partition_perm (s : St) (h : Reachable s) :
    (s.activedb ++ s.inactivedb).Perm (List.range s.n) ∧
    s.activedb.Nodup ∧ s.inactivedb.Nodup ∧
    (∀ x, x ∈ s.activedb → x ∉ s.inactivedb) ∧
    (∀ x, x < s.n ↔ (x ∈ s.activedb ∨ x ∈ s.inactivedb)) := by
  obtain ⟨-, -, hperm⟩ := reachable_StInv s h
  have hnd : (s.activedb ++ s.inactivedb).Nodup :=
    hperm.nodup_iff.mpr (List.nodup_range s.n)
  rw [List.nodup_append] at hnd
  refine ⟨hperm, hnd.1, hnd.2.1, hnd.2.2, ?_⟩
  intro x
  rw [← List.mem_range (n := s.n), ← hperm.mem_iff, List.mem_append]

/-- Witness for `reachable_partition_perm` at a freshly constructed
two-connection DB. -/
theorem reachable_partition_perm_witness :
    (((mkInit 2).activedb ++ (mkInit 2).inactivedb).Perm (List.range (mkInit 2).n)) ∧
    (mkInit 2).activedb.Nodup ∧ (mkInit 2).inactivedb.Nodup ∧
    (∀ x, x ∈ (mkInit 2).activedb → x ∉ (mkInit 2).inactivedb) ∧
    (∀ x, x < (mkInit 2).n ↔ (x ∈ (mkInit 2).activedb ∨ x ∈ (mkInit 2).inactivedb)) :=
  reachable_partition_perm (mkInit 2) (Reachable.init 2 (by decide))

/-- C6: construction over `n` targets seeds `db.length` and `activedb`
together (`db.length = n = len(activedb)`), and after every probe pass of
every reachable state `db.length` still equals `len(db.activedb)`. -/
theorem db_length_eq_active_len :
    (∀ n : Nat, (mkInit n).length = (n : Int) ∧ (mkInit n).activedb.length = n) ∧
    (∀ s : St, Reachable s → s.length = (s.activedb.length : Int)) := by
  constructor
  · intro n
    exact ⟨rfl, by simp [mkInit]⟩
  · intro s h
    exact (reachable_StInv s h).2.1

/-- Witness for `db_length_eq_active_len` at a three-connection DB after
one probe pass that demotes the second connection. -/
theorem db_length_eq_active_len_witness :
    (ping (fun k => if k = 1 then some 4 else none) (mkInit 3)).1.length =
      ((ping (fun k => if k = 1 then some 4 else none) (mkInit 3)).1.activedb.length : Int) :=
  db_length_eq_active_len.2 _
    (Reachable.step (mkInit 3) (fun k => if k = 1 then some 4 else none)
      (Reachable.init 3 (by decide)))

/-- The demotion scan keeps the Go `err` variable equal to the outcome of
the most recent ping call. -/
theorem phase1_err (oracle : Nat → Option Nat) :
    ∀ (todo kept : List Nat) (s : St) (k : Nat) (last : Option Nat),
      last = lastErr oracle k →
      (∀ s1 k1 e, phase1 oracle kept todo s k last = .early s1 k1 e →
        some e = lastErr oracle k1) ∧
      (∀ s1 k1 last1, phase1 oracle kept todo s k last = .done s1 k1 last1 →
        last1 = lastErr oracle k1) := by
  intro todo
  induction todo with
  | nil =>
    intro kept s k last hlast
    constructor
    · intro s1 k1 e h
      simp [phase1] at h
    · intro s1 k1 last1 h
      simp only [phase1, P1.done.injEq] at h
      obtain ⟨-, hk, hl⟩ := h
      rw [← hl, ← hk]
      exact hlast
  | cons val rest ih =>
    intro kept s k last hlast
    cases horacle : oracle k with
    | none =>
      have hstep : phase1 oracle kept (val :: rest) s k last =
          phase1 oracle (kept ++ [val]) rest (markOk s val) (k + 1) none := by
        simp [phase1, horacle]
      have hnext : (none : Option Nat) = lastErr oracle (k + 1) := by
        simp [lastErr, horacle]
      have ihh := ih (kept ++ [val]) (markOk s val) (k + 1) none hnext
      exact ⟨fun s1 k1 e h => ihh.1 s1 k1 e (hstep ▸ h),
             fun s1 k1 last1 h => ihh.2 s1 k1 last1 (hstep ▸ h)⟩
    | some e0 =>
      have hnext : (some e0 : Option Nat) = lastErr oracle (k + 1) := by
        simp [lastErr, horacle]
      by_cases hle : s.length ≤ 1
      · have hstep : phase1 oracle kept (val :: rest) s k last =
            .early { s with activedb := kept ++ val :: rest } (k + 1) e0 := by
          simp [phase1, horacle, hle]
        constructor
        · intro s1 k1 e h
          rw [hstep] at h
          simp only [P1.early.injEq] at h
          obtain ⟨-, hk, he⟩ := h
          rw [← he, ← hk]
          exact hnext
        · intro s1 k1 last1 h
          rw [hstep] at h
          simp at h
      · have hstep : phase1 oracle kept (val :: rest) s k last =
            phase1 oracle kept rest
              { markFail s val e0 with
                  inactivedb := s.inactivedb ++ [val]
                  length := s.length - 1 }
              (k + 1) (some e0) := by
          simp [phase1, horacle, hle]
        have ihh := ih kept
          { markFail s val e0 with
              inactivedb := s.inactivedb ++ [val]
              length := s.length - 1 }
          (k + 1) (some e0) hnext
        exact ⟨fun s1 k1 e h => ihh.1 s1 k1 e (hstep ▸ h),
               fun s1 k1 last1 h => ihh.2 s1 k1 last1 (hstep ▸ h)⟩

/-- The promotion scan keeps the Go `err` variable equal to the outcome of
the most recent ping call. -/
theorem phase2_err (oracle : Nat → Option Nat) :
    ∀ (todo kept : List Nat) (s : St) (k : Nat) (last : Option Nat),
      last = lastErr oracle k →
      (phase2 oracle kept todo s k last).2.2 =
        lastErr oracle (phase2 oracle kept todo s k last).2.1 := by
  intro todo
  induction todo with
  | nil =>
    intro kept s k last hlast
    simpa [phase2] using hlast
  | cons val rest ih =>
    intro kept s k last hlast
    cases horacle : oracle k with
    | some e0 =>
      have hstep : phase2 oracle kept (val :: rest) s k last =
          phase2 oracle (kept ++ [val]) rest (markFail s val e0) (k + 1) (some e0) := by
        simp [phase2, horacle]
      rw [hstep]
      exact ih (kept ++ [val]) (markFail s val e0) (k + 1) (some e0)
        (by simp [lastErr, horacle])
    | none =>
      have hstep : phase2 oracle kept (val :: rest) s k last =
          phase2 oracle kept rest
            { markOk s val with
                activedb := s.activedb ++ [val]
                length := s.length + 1 }
            (k + 1) none := by
        simp [phase2, horacle]
      rw [hstep]
      exact ih kept _ (k + 1) none (by simp [lastErr, horacle])

/-- C5 amended: a probe pass returns the outcome of the last ping call it
performed — `nil` if that call succeeded (or if no call was performed),
the error of that call otherwise.  Errors encountered earlier in the pass
and followed by another ping call are not returned. -/
theorem ping_returns_last_ping_outcome (oracle : Nat → Option Nat) (s : St) :
    (ping oracle s).2.2 = lastErr oracle (ping oracle s).2.1 := by
  have h1 := phase1_err oracle s.activedb [] s 0 none (by simp [lastErr])
  unfold ping
  cases hp : phase1 oracle [] s.activedb s 0 none with
  | early s1 k e =>
    exact h1.1 s1 k e hp
  | done s1 k last =>
    exact phase2_err oracle s1.inactivedb [] s1 k last (h1.2 s1 k last hp)

/-- If every target in `l1` opens fine and target `i` fails with error `e`,
the open loop over `l1 ++ i :: l2` aborts at `i`, reporting `l1` (plus any
previously opened handles) as opened, closing nothing, and appending `i` to
the abandoned `inactivedb`. -/
theorem openLoop_fail (openOr pingOr : Nat → Option Nat) :
    ∀ (l1 : List Nat) (i : Nat) (l2 : List Nat) (e : Nat) (s : St) (opened : List Nat),
      (∀ j ∈ l1, openOr j = none) → openOr i = some e →
      openLoop openOr pingOr (l1 ++ i :: l2) s opened =
        .fail e (opened ++ l1) [] (s.inactivedb ++ [i]) := by
  intro l1
  induction l1 with
  | nil =>
    intro i l2 e s opened hok hfail
    simp [openLoop, hfail]
  | cons j rest ih =>
    intro i l2 e s opened hok hfail
    have hj : openOr j = none := hok j (by simp)
    have hrest : ∀ x ∈ rest, openOr x = none := fun x hx => hok x (by simp [hx])
    have hih := ih i l2 e
      { s with activedb := s.activedb ++ [j]
               connected := s.connected.set j true
               errs := s.errs.set j none }
      (opened ++ [j]) hrest hfail
    simp only [List.cons_append, openLoop, hj]
    refine hih.trans ?_
    simp

/-- Splitting `range n` around a position `i < n`. -/
theorem range_split_at (i n : Nat) (h : i < n) :
    List.range n = List.range i ++ i :: (List.range n).drop (i + 1) := by
  conv_lhs => rw [← List.take_append_drop (i + 1) (List.range n)]
  rw [List.take_range, Nat.min_eq_left (by omega), List.range_succ]
  simp

/-- C9 amended: if opening the handle for target `i` fails during
construction (all earlier targets having opened), `openConnection` aborts
and returns that open error, with the handles of targets `0..i-1` opened
and left open — none is closed — and the failing index appended to the
`inactivedb` of the discarded struct. -/
theorem open_fail_leaves_handles_open (openOr pingOr : Nat → Option Nat)
    (src : List Char) (i e : Nat)
    (hi : i < (splitSemi src).length)
    (hok : ∀ j, j < i → openOr j = none)
    (hfail : openOr i = some e) :
    openConnectionM openOr pingOr src = .fail e (List.range i) [] [i] := by
  unfold openConnectionM
  have hlen : ¬ (splitSemi src).length < 1 := by omega
  simp only [if_neg hlen]
  rw [range_split_at i (splitSemi src).length hi]
  rw [openLoop_fail openOr pingOr (List.range i) i _ e _ []
    (fun j hj => hok j (List.mem_range.mp hj)) hfail]
  simp

/-- Witness for `open_fail_leaves_handles_open` on targets `"a;b"` where
target 1 fails with error 3. -/
theorem open_fail_leaves_handles_open_witness :
    openConnectionM (fun j => if j = 1 then some 3 else none) (fun _ => none)
      [Char.ofNat 97, ';', Char.ofNat 98] = .fail 3 (List.range 1) [] [1] :=
  open_fail_leaves_handles_open (fun j => if j = 1 then some 3 else none)
    (fun _ => none) [Char.ofNat 97, ';', Char.ofNat 98] 1 3 (by decide)
    (fun j hj => by
      have h0 : j = 0 := by omega
      subst h0
      rfl)
    rfl

/-- Witness for `open_empty_sources_not_rejected`: the empty sources string
yields a constructed one-connection state. -/
theorem open_empty_sources_not_rejected_witness :
    openConnectionM (fun _ => none) (fun _ => none) [] = .ok (mkInit 1) 1 none :=
  open_empty_sources_not_rejected.1
